import Mathlib

/-!
# Verification of the Liar's Dice search engines (CFR, Monte-Carlo CFR, SO-MCTS)

A shallow embedding of the repository's Python sources (`liars_dice.py`,
`cfr.py`, `monte_cfr.py`, `mcts.py`) into Lean, together with theorems that
settle the frozen specification claims.

Conventions of the embedding:
* A bid `(quantity, face)` is a pair of naturals; the *Challenge* move is
  Python's `None`, embedded as `Option.none`, so a move is `Option (ℕ × ℕ)`.
* A roll is the length-6 list of face counts (faces 1..6); a player whose
  roll is not yet determined carries `Option.none` (a chance node).
* Python float arithmetic is embedded as exact rational arithmetic (`ℚ`).
* Python exceptions are embedded with `Except PyErr`; code that can raise
  is written in the `Except` monad, and an uncaught exception propagates.
* Python tuple indexing `t[i]` on a valid index is embedded as
  `List.getD i 0`; theorems carry the length/range hypotheses that make
  the index valid, mirroring the call sites.
* `random.choice` / `random.choices` draws are embedded by threading a
  choice stream `rand : ℕ → ℕ` with a position counter: the drawn index is
  `rand t % length` (for weighted draws, into the positive-weight support,
  which is exactly the support of Python's `random.choices`).
* The wall-clock `while time.time() - start < limit` loops are embedded by
  an explicit iteration count `iters : ℕ` (the number of loop bodies that
  complete before the budget elapses); recursion over the game tree uses a
  `fuel` parameter, with exhaustion reported as a distinguished error.
-/

/-- Python runtime errors that the embedded code can raise. `outOfFuel` is
the embedding artifact for recursion-fuel exhaustion (never raised by any
run that terminates in the source). -/
inductive PyErr where
  | typeError
  | keyError
  | indexError
  | valueError
  | zeroDivisionError
  | outOfFuel
  deriving DecidableEq, Repr

deriving instance DecidableEq for Except

/-- A move: `some (quantity, face)` is a bid, `none` is *Challenge*
(Python's `None`). -/
abbrev Move := Option (ℕ × ℕ)

/-- A roll: the list of counts of faces 1..6 (length 6 in well-formed data). -/
abbrev Roll := List ℕ

/-- The `NUM_FACES = 6` from `liars_dice.py` / `mcts.py`. -/
def NUM_FACES : ℕ := 6

/-- The `EPSILON = 0.2` from `liars_dice.py` / `mcts.py` (exact: 1/5). -/
def EPSILON : ℚ := 1/5

/-- The information-set state `LiarsDiceIS` (identical classes in
`liars_dice.py` and `mcts.py`). `player_one_roll = none` marks a chance
node awaiting determinization. -/
structure LiarsDiceIS where
  player_one_num_dice : ℕ
  player_two_num_dice : ℕ
  player_one_roll : Option Roll
  bid_history : List Move
  player_one_turn : Bool
  deriving DecidableEq, Repr

namespace LiarsDiceIS

/-- The `__is_terminal__`: the bid history is non-empty and its last entry is
`None` (a Challenge). -/
def is_terminal (s : LiarsDiceIS) : Bool :=
  s.bid_history.getLast? = some none

/-- The `__is_chance__`: the current state is a chance node (no roll yet). -/
def is_chance (s : LiarsDiceIS) : Bool :=
  s.player_one_roll = none

/-- The bids of the same quantity as `last_bid` with a strictly higher face:
`for face_value in range(last_bid[1] + 1, NUM_FACES + 1)`. -/
def same_quantity_bids (last_bid : ℕ × ℕ) : List Move :=
  (List.range' (last_bid.2 + 1) (NUM_FACES - last_bid.2)).map
    (fun face_value => some (last_bid.1, face_value))

/-- The bids of a strictly higher quantity, any face in 2..6:
`for quantity in range(last_bid[0] + 1, p1_dice + p2_dice + 1):
   for face_value in range(2, NUM_FACES + 1)`. -/
def higher_quantity_bids (last_bid : ℕ × ℕ) (total_dice : ℕ) : List Move :=
  (List.range' (last_bid.1 + 1) (total_dice - last_bid.1)).flatMap
    (fun quantity => (List.range' 2 (NUM_FACES - 1)).map
      (fun face_value => some (quantity, face_value)))

/-- The `__possible_moves__` (no parameter besides `self`): the legal moves from
a state.  Terminal states have none; with an empty history the opening bid
`(1,2)` is prepended and also serves as the `last_bid` starting point; a
Challenge is appended exactly when a bid already exists.  (In the source
the non-empty, non-terminal case always has a bid as last entry; the
embedding reads it off `getLast?`.) -/
def possible_moves (s : LiarsDiceIS) : List Move :=
  match s.bid_history.getLast? with
  | some none => []  -- terminal: __is_terminal__ short-circuits to []
  | none =>
      -- no bids yet: lowest possible bid is a single 2, no challenge
      some (1, 2) :: same_quantity_bids (1, 2) ++
        higher_quantity_bids (1, 2) (s.player_one_num_dice + s.player_two_num_dice)
  | some (some last_bid) =>
      same_quantity_bids last_bid ++
        higher_quantity_bids last_bid (s.player_one_num_dice + s.player_two_num_dice) ++
        [none]

/-- The call `state.__possible_moves__(...)` with `nargs` positional
arguments beyond `self`.  The method accepts none, so Python raises
`TypeError` for any `nargs ≠ 0`. -/
def possible_moves_call (s : LiarsDiceIS) (nargs : ℕ) : Except PyErr (List Move) :=
  if nargs = 0 then .ok (possible_moves s) else .error .typeError

/-- The `__successor__`: append the bid and flip the turn. -/
def successor (s : LiarsDiceIS) (bid : Move) : LiarsDiceIS :=
  { s with bid_history := s.bid_history ++ [bid], player_one_turn := !s.player_one_turn }

end LiarsDiceIS

/-- The `score` from `liars_dice.py` / `mcts.py`, with the rolls optional as at
the call sites inside the CFR engines (where one side's roll can still be
`None`).  Follows the source's evaluation order: the non-terminal guard
returns 0; `bid_history[-2]` raises `IndexError` when the history is a lone
Challenge; subscripting a `None` last bid or a `None` roll raises
`TypeError`. -/
def scoreE (player_one_roll player_two_roll : Option Roll) (bid_history : List Move)
    (player_one_last_bidder : Bool) : Except PyErr Int :=
  if bid_history.getLast? ≠ some none then .ok 0
  else
    match bid_history.dropLast.getLast? with
    | none => .error .indexError          -- bid_history[-2] out of range
    | some none => .error .typeError      -- last_bid is None: None[1]
    | some (some last_bid) =>
        match player_one_roll, player_two_roll with
        | some r1, some r2 =>
            let num_faces := r1.getD (last_bid.2 - 1) 0 + r1.getD 0 0 +
              r2.getD (last_bid.2 - 1) 0 + r2.getD 0 0
            if player_one_last_bidder then
              .ok (if num_faces ≥ last_bid.1 then 1 else -1)
            else
              .ok (if num_faces ≥ last_bid.1 then -1 else 1)
        | _, _ => .error .typeError       -- subscripting a None roll

/-! ## `cfr.py` -/

/-- The `bid_history[-1:]`: the (at most singleton) slice holding the last move. -/
def lastSlice (h : List Move) : List Move :=
  match h.getLast? with
  | none => []
  | some m => [m]

/-- The `info_map` key `str(player_one_roll) + " " + str(bid_history[-1:])`,
embedded as the pair the string is built from (the string representation is
injective on these pairs). -/
abbrev InfoKey := Option Roll × List Move

/-- The `CFRNode` from `cfr.py`: possible moves plus the cumulative-regret,
current-strategy and cumulative-strategy tables.  The Python dicts keyed by
the node's moves are embedded as total functions on moves, read and written
only at keys in `moves`. -/
structure CFRNode where
  info_key : InfoKey
  moves : List Move
  total_regret : Move → ℚ
  strategy : Move → ℚ
  total_prob : Move → ℚ

/-- The `CFRNode.__init__`: all three tables start at zero. -/
def CFRNode.init (info_key : InfoKey) (moves : List Move) : CFRNode :=
  ⟨info_key, moves, fun _ => 0, fun _ => 0, fun _ => 0⟩

/-- The `CFRNode.get_curr_strat`: regret matching.  Clip regrets at zero; if the
positive mass is positive, normalize by it, otherwise fall back to the
uniform distribution; in both cases accumulate
`total_prob[move] += probability * strategy[move]`.  Returns the strategy
together with the updated node (the source mutates the node in place). -/
def CFRNode.get_curr_strat (node : CFRNode) (probability : ℚ) : (Move → ℚ) × CFRNode :=
  let pos : Move → ℚ := fun move => max 0 (node.total_regret move)
  let total_pos_regret := (node.moves.map pos).sum
  let strategy : Move → ℚ :=
    if total_pos_regret > 0 then fun move => pos move / total_pos_regret
    else fun _move => 1 / (node.moves.length : ℚ)
  let total_prob : Move → ℚ := fun move =>
    if move ∈ node.moves then node.total_prob move + probability * strategy move
    else node.total_prob move
  (strategy, { node with strategy := strategy, total_prob := total_prob })

/-- The `CFRNode.get_average_strat`: normalize the cumulative-strategy table
(uniform fallback on zero mass), then zero every entry below `0.001` while
summing the surviving mass into `normal_prob`.  The source's final loop
evaluates `average_strat[move] / normal_prob` as a bare expression
statement — the quotient is discarded and no entry is reassigned — so the
pruned table is returned unrescaled. -/
def CFRNode.get_average_strat (node : CFRNode) : Move → ℚ :=
  let total_prob := (node.moves.map node.total_prob).sum
  let average_strat : Move → ℚ :=
    if total_prob > 0 then fun move => node.total_prob move / total_prob
    else fun _move => 1 / (node.moves.length : ℚ)
  let pruned : Move → ℚ := fun move =>
    if average_strat move < 1/1000 then 0 else average_strat move
  let normal_prob := (node.moves.map pruned).sum
  let _discarded := fun move => pruned move / normal_prob
  pruned

/-- The `itertools.product(l, repeat=k)` specialised to lists of naturals
(leftmost factor varies slowest, as in Python). -/
def repeatedProduct (l : List ℕ) : ℕ → List (List ℕ)
  | 0 => [[]]
  | k + 1 => l.flatMap (fun x => (repeatedProduct l k).map (x :: ·))

/-- The `tuple(roll.count(i) for i in range(1, 7))`: the face-count vector of a
roll given as a list of face values. -/
def count_vector (roll : List ℕ) : List ℕ :=
  (List.range' 1 NUM_FACES).map (fun i => roll.count i)

/-- The multinomial probability `factorial(n) / (c1!·c2!·c3!·c4!·c5!·c6!) ·
(1/6)**n` assigned to an outcome by `generate_dice_outcomes` (exact
rationals standing for the source's floats). -/
def multinomial_prob (n : ℕ) (outcome : List ℕ) : ℚ :=
  (Nat.factorial n : ℚ) /
    ((Nat.factorial (outcome.getD 0 0) : ℚ) * (Nat.factorial (outcome.getD 1 0)) *
      (Nat.factorial (outcome.getD 2 0)) * (Nat.factorial (outcome.getD 3 0)) *
      (Nat.factorial (outcome.getD 4 0)) * (Nat.factorial (outcome.getD 5 0))) *
    (1/6) ^ n

/-- The `generate_dice_outcomes`: enumerate all rolls of `n` dice, collect the
distinct face-count vectors (the `Counter` keys), and map each to its
multinomial probability.  The dict is embedded as the key list (deduplicated)
paired with the value function. -/
def generate_dice_outcomes (n : ℕ) : List Roll × (Roll → ℚ) :=
  let all_rolls := repeatedProduct (List.range' 1 NUM_FACES) n
  let outcomes := (all_rolls.map count_vector).dedup
  (outcomes, fun outcome => multinomial_prob n outcome)

/-- The `get_move_from_strat` / `random.choices(moves, weights=probs, k=1)[0]`:
draw a key with probability proportional to its weight.  The draw `d`
selects within the positive-weight support (exactly the values Python can
return); a support-less table raises `ValueError` as `random.choices` does
when the total weight is not positive. -/
def get_move_from_strat {α : Type} (keys : List α) (strat : α → ℚ) (d : ℕ) :
    Except PyErr α :=
  let support := keys.filter (fun k => decide (0 < strat k))
  match support with
  | [] => .error .valueError
  | x :: _ => .ok (support.getD (d % support.length) x)

/-- The `info_map` dictionary: decision-node key to `CFRNode`. -/
abbrev InfoMap := List (InfoKey × CFRNode)

/-- Dictionary lookup `info_map.get(info_key)`. -/
def lookupKey (m : InfoMap) (k : InfoKey) : Option CFRNode :=
  (m.find? (fun p => decide (p.1 = k))).map (·.2)

/-- Dictionary update `info_map[info_key] = node` for an existing key. -/
def updateKey (m : InfoMap) (k : InfoKey) (v : CFRNode) : InfoMap :=
  m.map (fun p => if p.1 = k then (k, v) else p)

/-- The recursive `cfr` tree walk from `cfr.py`.  Terminal states are scored
from the current mover's perspective; chance nodes take the exact
expectation over the full outcome distribution; decision nodes call
`__possible_moves__(True)` — one positional argument against a method that
accepts none — exactly as the source's line
`moves = info_sets[curr_player].__possible_moves__(True)` does, before any
node creation or table update.  State: `(value, info_map)`; `probs` is
`[p0, p1, chance]`. -/
def cfr : ℕ → InfoMap → LiarsDiceIS → LiarsDiceIS → ℚ × ℚ × ℚ →
    Except PyErr (ℚ × InfoMap)
  | 0, _, _, _, _ => .error .outOfFuel
  | fuel + 1, info_map, s0, s1, probs =>
    if s0.is_terminal || s1.is_terminal then
      -- curr_player = 0 iff info_sets[0].player_one_turn
      let scurr := if s0.player_one_turn then s0 else s1
      let sother := if s0.player_one_turn then s1 else s0
      (scoreE scurr.player_one_roll sother.player_one_roll scurr.bid_history
        scurr.player_one_turn).map (fun v => ((v : ℚ), info_map))
    else if s0.is_chance || s1.is_chance then
      let n := (if s0.is_chance then s0 else s1).player_one_num_dice
      let gen := generate_dice_outcomes n
      gen.1.foldlM (fun (acc : ℚ × InfoMap) outcome => do
        let prob_other := gen.2 outcome
        let s0' := if s0.is_chance then { s0 with player_one_roll := some outcome } else s0
        let s1' := if s0.is_chance then s1 else { s1 with player_one_roll := some outcome }
        let r ← cfr fuel acc.2 s0' s1' (probs.1, probs.2.1, probs.2.2 * prob_other)
        pure (acc.1 + prob_other * r.1, r.2)) (0, info_map)
    else do
      let scurr := if s0.player_one_turn then s0 else s1
      let info_key : InfoKey := (scurr.player_one_roll, lastSlice scurr.bid_history)
      -- the faulty call: `__possible_moves__(True)` raises TypeError here
      let moves ← scurr.possible_moves_call 1
      let m0 := if (lookupKey info_map info_key).isSome then info_map
        else (info_key, CFRNode.init info_key moves) :: info_map
      let node := (lookupKey m0 info_key).getD (CFRNode.init info_key moves)
      let reach := if s0.player_one_turn then probs.1 else probs.2.1
      let stratNode := node.get_curr_strat reach
      let curr_strat := stratNode.1
      let m1 := updateKey m0 info_key stratNode.2
      let acc ← moves.foldlM (fun (acc : ℚ × (Move → ℚ) × InfoMap) move => do
          let succ0 := s0.successor move
          let succ1 := s1.successor move
          let probs' := if s0.player_one_turn then
              (probs.1 * curr_strat move, probs.2.1, probs.2.2)
            else (probs.1, probs.2.1 * curr_strat move, probs.2.2)
          let r ← cfr fuel acc.2.2 succ0 succ1 probs'
          let payMove := -1 * r.1
          pure (acc.1 + curr_strat move * payMove,
            fun mv => if mv = move then payMove else acc.2.1 mv, r.2))
        (0, fun _ => 0, m1)
      let payoff := acc.1
      let otherReach := if s0.player_one_turn then probs.2.1 else probs.1
      let node2 := (lookupKey acc.2.2 info_key).getD (CFRNode.init info_key moves)
      let node3 := { node2 with total_regret := (fun mv =>
        if mv ∈ moves then node2.total_regret mv + otherReach * probs.2.2 * (acc.2.1 mv - payoff)
        else node2.total_regret mv) }
      pure (payoff, updateKey acc.2.2 info_key node3)

/-- The `get_cfr`: run `cfr` from the root until the time budget elapses
(`iters` completed loop bodies), then look the queried node up in the
`info_map` (a missing key raises `KeyError`), extract the average strategy
and sample the returned move from it.  `fuel` bounds the recursion depth and
`d` is the sampling draw. -/
def get_cfr (iters fuel d : ℕ) (info_set : LiarsDiceIS) : Except PyErr Move := do
  let p1 := info_set.player_one_num_dice
  let p2 := info_set.player_two_num_dice
  let info_map ← (List.range iters).foldlM (fun (m : InfoMap) _ => do
      let other : LiarsDiceIS := ⟨p2, p1, none, info_set.bid_history, !info_set.player_one_turn⟩
      let r ← cfr fuel m info_set other (1, 1, 1)
      pure r.2) ([] : InfoMap)
  let info_key : InfoKey := (info_set.player_one_roll, lastSlice info_set.bid_history)
  match lookupKey info_map info_key with
  | none => .error .keyError
  | some my_node => get_move_from_strat my_node.moves my_node.get_average_strat d

/-! ## `monte_cfr.py` -/

/-- The recursive `monte_cfr` tree walk from `monte_cfr.py`.  Terminal and
decision-node handling mirror `cfr` (including the faulty
`__possible_moves__(True)` call at
`moves = info_sets[curr_player].__possible_moves__(True)`), but the chance
node samples a single outcome via `get_move_from_strat` and the opponent's
decision node samples a single action from the current strategy.  Randomness
is a choice stream `rand` with position `t`; state is
`(value, info_map, next position)`. -/
def monte_cfr : ℕ → (ℕ → ℕ) → ℕ → InfoMap → LiarsDiceIS → LiarsDiceIS →
    ℚ × ℚ × ℚ → Except PyErr (ℚ × InfoMap × ℕ)
  | 0, _, _, _, _, _, _ => .error .outOfFuel
  | fuel + 1, rand, t, info_map, s0, s1, probs =>
    if s0.is_terminal || s1.is_terminal then
      let scurr := if s0.player_one_turn then s0 else s1
      let sother := if s0.player_one_turn then s1 else s0
      (scoreE scurr.player_one_roll sother.player_one_roll scurr.bid_history
        scurr.player_one_turn).map (fun v => ((v : ℚ), info_map, t))
    else if s0.is_chance || s1.is_chance then do
      let n := (if s0.is_chance then s0 else s1).player_one_num_dice
      let gen := generate_dice_outcomes n
      let outcome ← get_move_from_strat gen.1 gen.2 (rand t)
      let s0' := if s0.is_chance then { s0 with player_one_roll := some outcome } else s0
      let s1' := if s0.is_chance then s1 else { s1 with player_one_roll := some outcome }
      let action_prob := gen.2 outcome
      let r ← monte_cfr fuel rand (t + 1) info_map s0' s1'
        (probs.1, probs.2.1, probs.2.2 * action_prob)
      pure (action_prob * r.1, r.2.1, r.2.2)
    else do
      let scurr := if s0.player_one_turn then s0 else s1
      let info_key : InfoKey := (scurr.player_one_roll, lastSlice scurr.bid_history)
      -- the faulty call: `__possible_moves__(True)` raises TypeError here
      let moves ← scurr.possible_moves_call 1
      let m0 := if (lookupKey info_map info_key).isSome then info_map
        else (info_key, CFRNode.init info_key moves) :: info_map
      let node := (lookupKey m0 info_key).getD (CFRNode.init info_key moves)
      let reach := if s0.player_one_turn then probs.1 else probs.2.1
      let stratNode := node.get_curr_strat reach
      let curr_strat := stratNode.1
      let m1 := updateKey m0 info_key stratNode.2
      if s0.player_one_turn then
        -- player node: full regret-matching pass over every legal move
        let acc ← moves.foldlM (fun (acc : ℚ × (Move → ℚ) × InfoMap × ℕ) move => do
            let succ0 := s0.successor move
            let succ1 := s1.successor move
            let r ← monte_cfr fuel rand acc.2.2.2 acc.2.2.1 succ0 succ1
              (probs.1 * curr_strat move, probs.2.1, probs.2.2)
            let payMove := -1 * r.1
            pure (acc.1 + curr_strat move * payMove,
              fun mv => if mv = move then payMove else acc.2.1 mv, r.2.1, r.2.2))
          (0, fun _ => 0, m1, t)
        let payoff := acc.1
        let node2 := (lookupKey acc.2.2.1 info_key).getD (CFRNode.init info_key moves)
        let node3 := { node2 with total_regret := (fun mv =>
          if mv ∈ moves then node2.total_regret mv + probs.2.1 * probs.2.2 * (acc.2.1 mv - payoff)
          else node2.total_regret mv) }
        pure (payoff, updateKey acc.2.2.1 info_key node3, acc.2.2.2)
      else do
        -- opponent node: sample one action from the current strategy
        let move ← get_move_from_strat moves curr_strat (rand t)
        let succ0 := s0.successor move
        let succ1 := s1.successor move
        let r ← monte_cfr fuel rand (t + 1) m1 succ0 succ1
          (probs.1, probs.2.1 * curr_strat move, probs.2.2)
        pure (-1 * r.1, r.2.1, r.2.2)

/-- The `get_monte_cfr`: run `monte_cfr` from the root for `iters` completed
loop bodies, then look the queried node up (a missing key raises
`KeyError`), extract the average strategy and sample the returned move. -/
def get_monte_cfr (iters fuel : ℕ) (rand : ℕ → ℕ) (d : ℕ) (info_set : LiarsDiceIS) :
    Except PyErr Move := do
  let p1 := info_set.player_one_num_dice
  let p2 := info_set.player_two_num_dice
  let st ← (List.range iters).foldlM (fun (st : InfoMap × ℕ) _ => do
      let other : LiarsDiceIS := ⟨p2, p1, none, info_set.bid_history, !info_set.player_one_turn⟩
      let r ← monte_cfr fuel rand st.2 st.1 info_set other (1, 1, 1)
      pure (r.2.1, r.2.2)) (([] : InfoMap), 0)
  let info_key : InfoKey := (info_set.player_one_roll, lastSlice info_set.bid_history)
  match lookupKey st.1 info_key with
  | none => .error .keyError
  | some my_node => get_move_from_strat my_node.moves my_node.get_average_strat d

/-! ## `mcts.py` -/

/-- The `random.choice(l)`: a uniform draw, embedded as the index `d % l.length`
(every index is a possible outcome); an empty sequence raises `IndexError`
as in Python. -/
def randChoice {α : Type} (l : List α) (d : ℕ) : Except PyErr α :=
  match l with
  | [] => .error .indexError
  | x :: _ => .ok (l.getD (d % l.length) x)

/-- The `random.choices(keys, weights=ws, k=1)[0]` with a parallel weight list:
a draw within the positive-weight support; a support-less list raises
`ValueError` as `random.choices` does on non-positive total weight. -/
def choices_weighted {α : Type} (keys : List α) (ws : List ℚ) (d : ℕ) :
    Except PyErr α :=
  let support := (keys.zip ws).filter (fun p => decide (0 < p.2))
  match support with
  | [] => .error .valueError
  | x :: _ => .ok ((support.getD (d % support.length) x).1)

/-- The `generate_roll_tuples`: all 6-tuples of counts in `0..num_dice` that sum
to `num_dice` (candidate opponent rolls). -/
def generate_roll_tuples (num_dice : ℕ) : List Roll :=
  (repeatedProduct (List.range (num_dice + 1)) NUM_FACES).filter
    (fun t => decide (t.sum = num_dice))

/-- The weight accumulated for one candidate roll over the bid history in
`bayesian_determinization_distribution`: starting from 1, each bid made on
the opponent's turn that the roll could truthfully support (count of the
bid's face plus wilds at least the bid quantity) multiplies the weight by
`1/EPSILON`.  A `None` entry reached on the opponent's turn raises
`TypeError` (`bid[1]` on `None`), as in the source. -/
def roll_weight (roll : Roll) : Bool → List Move → Except PyErr ℚ
  | _, [] => .ok 1
  | current_turn_p1, bid :: rest =>
    if current_turn_p1 then roll_weight roll (!current_turn_p1) rest
    else
      match bid with
      | none => .error .typeError
      | some b => do
          let w ← roll_weight roll (!current_turn_p1) rest
          let num_faces := roll.getD (b.2 - 1) 0 + roll.getD 0 0
          pure (if num_faces ≥ b.1 then (1 / EPSILON) * w else w)

/-- The `bayesian_determinization_distribution`: weight every candidate roll by
`1/EPSILON` per supported opponent bid, then normalize by the total. -/
def bayesian_determinization_distribution (player_two_num_dice : ℕ)
    (bid_history : List Move) (root_player_one_turn : Bool) :
    Except PyErr (List Roll × List ℚ) := do
  let all_rolls := generate_roll_tuples player_two_num_dice
  let weights ← all_rolls.mapM (fun r => roll_weight r root_player_one_turn bid_history)
  let total := weights.sum
  if total = 0 then .error .zeroDivisionError
  else pure (all_rolls, weights.map (· / total))

/-- The `epsilon_conservative` (identical in `liars_dice.py` and `mcts.py`):
with the bluff outcome, a uniform draw over all moves (an empty move list
makes `random.randint(0, -1)` raise `ValueError`); otherwise a uniform draw
over the raises the determinized roll can support, or a Challenge when
there is none. -/
def epsilon_conservative (roll : Roll) (moves : List Move) (bluff : Bool) (d : ℕ) :
    Except PyErr Move :=
  if bluff then
    match moves with
    | [] => .error .valueError
    | x :: _ => .ok (moves.getD (d % moves.length) x)
  else
    let viable := moves.filter (fun m =>
      match m with
      | none => false
      | some b => decide (roll.getD 0 0 + roll.getD (b.2 - 1) 0 ≥ b.1))
    match viable with
    | [] => .ok none
    | x :: _ => .ok (viable.getD (d % viable.length) x)

/-- An `Edge` of the MCTS tree: the move it represents and its selection
count `n`.  The source also stores a direct child pointer; children are
memoized by bid history and never replaced in `node_memo`, so the pointer
is recovered as the memo entry at `parent history ++ [action]`. -/
structure EdgeData where
  action : Move
  n : ℕ

/-- An `ISNode`: the wrapped information set, the optional expanded edge
list, and the visit/reward statistics. -/
structure ISNode where
  info_set : LiarsDiceIS
  edges : Option (List EdgeData)
  visit_count : ℕ
  total_reward : Int

/-- The `ISNode.__init__`. -/
def ISNode.init (info_set : LiarsDiceIS) : ISNode :=
  ⟨info_set, none, 0, 0⟩

/-- The `ISNode.is_expanded`. -/
def ISNode.is_expanded (nd : ISNode) : Bool :=
  !nd.info_set.player_one_turn || nd.edges.isSome

/-- The `node_memo`: the dictionary of tree nodes.  `LiarsDiceIS` hashes and
compares by bid history alone, so the key is the history. -/
abbrev Memo := List (List Move × ISNode)

/-- Memo lookup (dictionary `in`/`[]`). -/
def memoFind (m : Memo) (k : List Move) : Option ISNode :=
  (m.find? (fun p => decide (p.1 = k))).map (·.2)

/-- Memo insertion of a fresh key. -/
def memoInsert (m : Memo) (k : List Move) (v : ISNode) : Memo :=
  (k, v) :: m

/-- Memo update at an existing key. -/
def memoUpdate (m : Memo) (k : List Move) (v : ISNode) : Memo :=
  m.map (fun p => if p.1 = k then (k, v) else p)

/-- The `ISNode.expand`: one edge per legal move, creating (and memoizing) any
child node not already present. -/
def ISNode.expand (nd : ISNode) (memo : Memo) : List EdgeData × Memo :=
  nd.info_set.possible_moves.foldl (fun (acc : List EdgeData × Memo) action =>
    let succ := nd.info_set.successor action
    let memo' := if (memoFind acc.2 succ.bid_history).isSome then acc.2
      else memoInsert acc.2 succ.bid_history (ISNode.init succ)
    (acc.1 ++ [⟨action, 0⟩], memo')) ([], memo)

/-- The iteration of `random_play`'s `while not current_is.__is_terminal__()`
loop: step through uniformly-random legal moves until a terminal state,
returning it with the next stream position. -/
def random_play_loop (rand : ℕ → ℕ) : ℕ → ℕ → LiarsDiceIS →
    Except PyErr (LiarsDiceIS × ℕ)
  | 0, _, _ => .error .outOfFuel
  | fuel + 1, t, current_is =>
    if current_is.is_terminal then .ok (current_is, t)
    else do
      let m ← randChoice current_is.possible_moves (rand t)
      random_play_loop rand fuel (t + 1) (current_is.successor m)

/-- The `random_play`: run the playout loop to a terminal state, then score.
The source's return statement reads
`score(info_set.player_one_roll, determinization, info_set.bid_history,
info_set.player_one_turn)` — it scores `info_set`, the state the playout
*started* from, and discards the terminal state the loop reached. -/
def random_play (fuel : ℕ) (rand : ℕ → ℕ) (t : ℕ) (info_set : LiarsDiceIS)
    (determinization : Roll) : Except PyErr (Int × ℕ) := do
  let reached ← random_play_loop rand fuel t info_set
  let v ← scoreE info_set.player_one_roll (some determinization)
    info_set.bid_history info_set.player_one_turn
  pure (v, reached.2)

/-- The `traverse`: one MCTS pass over the subtree rooted at the node stored
under `rootKey`, updating statistics in the memo.  Terminal nodes score the
determinized position; opponent turns step through the epsilon-conservative
policy; expanded observer nodes descend along a selected edge (the source
selects by UCB1 over floating-point scores — the selected index is
abstracted as a draw from the choice stream, since selection numerics decide
no claim); unexpanded observer nodes expand, pick a random child, and run
`random_play` from it.  State: `(reward, memo, next stream position)`. -/
def traverse : ℕ → (ℕ → Bool) → (ℕ → ℕ) → ℕ → Memo → List Move → Roll →
    Except PyErr (Int × Memo × ℕ)
  | 0, _, _, _, _, _, _ => .error .outOfFuel
  | fuel + 1, bluffs, rand, t, memo, rootKey, det =>
    match memoFind memo rootKey with
    | none => .error .keyError
    | some nd =>
      if nd.info_set.is_terminal then do
        let reward ← scoreE nd.info_set.player_one_roll (some det)
          nd.info_set.bid_history nd.info_set.player_one_turn
        pure (reward, memoUpdate memo rootKey
          { nd with visit_count := nd.visit_count + 1,
                    total_reward := nd.total_reward + reward }, t)
      else if !nd.info_set.player_one_turn then do
        let action ← epsilon_conservative det nd.info_set.possible_moves (bluffs t) (rand t)
        let next := nd.info_set.successor action
        let memo1 := if (memoFind memo next.bid_history).isSome then memo
          else memoInsert memo next.bid_history (ISNode.init next)
        let r ← traverse fuel bluffs rand (t + 1) memo1 next.bid_history det
        match memoFind r.2.1 rootKey with
        | none => .error .keyError
        | some nd2 => pure (r.1, memoUpdate r.2.1 rootKey
            { nd2 with visit_count := nd2.visit_count + 1,
                       total_reward := nd2.total_reward + r.1 }, r.2.2)
      else if nd.is_expanded then
        match nd.edges with
        | none => .error .typeError
        | some edges =>
          match edges with
          | [] => .error .indexError
          | e0 :: _ => do
            let i := rand t % edges.length
            let e := edges.getD i e0
            let memo1 := memoUpdate memo rootKey
              { nd with edges := some (edges.set i { e with n := e.n + 1 }) }
            let childKey := nd.info_set.bid_history ++ [e.action]
            let r ← traverse fuel bluffs rand (t + 1) memo1 childKey det
            match memoFind r.2.1 rootKey with
            | none => .error .keyError
            | some nd2 => pure (r.1, memoUpdate r.2.1 rootKey
                { nd2 with visit_count := nd2.visit_count + 1,
                           total_reward := nd2.total_reward + r.1 }, r.2.2)
      else
        -- Base case #2: expand, pick a random child, random playout
        let em := nd.expand memo
        let edges := em.1
        let memo1 := memoUpdate em.2 rootKey { nd with edges := some edges }
        match edges with
        | [] => .error .indexError
        | e0 :: _ => do
          let i := rand t % edges.length
          let e := edges.getD i e0
          let memo2 := memoUpdate memo1 rootKey
            { nd with edges := some (edges.set i { e with n := e.n + 1 }) }
          let childKey := nd.info_set.bid_history ++ [e.action]
          match memoFind memo2 childKey with
          | none => .error .keyError
          | some child => do
            let rp ← random_play fuel rand (t + 1) child.info_set det
            let reward := rp.1
            let memo3 := memoUpdate memo2 childKey
              { child with visit_count := child.visit_count + 1,
                           total_reward := child.total_reward + reward }
            match memoFind memo3 rootKey with
            | none => .error .keyError
            | some nd2 => pure (reward, memoUpdate memo3 rootKey
                { nd2 with visit_count := nd2.visit_count + 1,
                           total_reward := nd2.total_reward + reward }, rp.2)

/-- The `argmax` from `mcts.py`: the first index holding a maximal value;
`none` stands for the source's `float('-inf')` placeholder. -/
def argmaxAux : List (Option ℚ) → ℕ → ℕ → Option ℚ → ℕ
  | [], _, best, _ => best
  | v :: rest, i, best, bv =>
    let gt : Bool := match v, bv with
      | some x, some y => decide (x > y)
      | some _, none => true
      | none, _ => false
    if gt then argmaxAux rest (i + 1) i v else argmaxAux rest (i + 1) best bv

/-- The `argmax` over a list of values (first maximal index, empty list gives 0
— the source would raise on an empty iterable, which no call site reaches). -/
def argmaxList (l : List (Option ℚ)) : ℕ :=
  match l with
  | [] => 0
  | v :: rest => argmaxAux rest 1 0 v

/-- The `mcts`: fail on a terminal root, sample determinizations from the
Bayesian posterior and traverse for `iters` completed loop bodies; if the
root was never expanded return a uniformly random legal move, else the
action of the edge with the highest mean reward (children with no visits
count as `-inf`). -/
def mcts (iters fuel : ℕ) (bluffs : ℕ → Bool) (rand : ℕ → ℕ)
    (info_set : LiarsDiceIS) : Except PyErr Move :=
  if info_set.is_terminal then .error .valueError
  else do
    let root := ISNode.init info_set
    let memo0 : Memo := [(info_set.bid_history, root)]
    let bayes ← bayesian_determinization_distribution info_set.player_two_num_dice
      info_set.bid_history (decide (info_set.bid_history.length % 2 = 0))
    let st ← (List.range iters).foldlM (fun (st : Memo × ℕ) _ => do
        let det ← choices_weighted bayes.1 bayes.2 (rand st.2)
        let r ← traverse fuel bluffs rand (st.2 + 1) st.1 info_set.bid_history det
        pure (r.2.1, r.2.2)) (memo0, 0)
    match memoFind st.1 info_set.bid_history with
    | none => .error .keyError
    | some rootNd =>
      if !rootNd.is_expanded then
        randChoice rootNd.info_set.possible_moves (rand st.2)
      else
        match rootNd.edges with
        | none => .error .typeError   -- iterating `None` edges (non-observer root)
        | some edges =>
          let vals := edges.map (fun e =>
            match memoFind st.1 (rootNd.info_set.bid_history ++ [e.action]) with
            | none => (none : Option ℚ)
            | some child =>
              if child.visit_count > 0 then
                some ((child.total_reward : ℚ) / (child.visit_count : ℚ))
              else none)
          match edges with
          | [] => .error .indexError
          | e0 :: _ => .ok ((edges.getD (argmaxList vals) e0).action)

/-! ## Definitions taken from the specification's words (for comparison) -/

/-- The legal-move set in the words of the specification claim, with the
quantity cap left as a parameter `bound`: with no prior bids, every bid
`(q, f)` with `1 ≤ q ≤ bound` and `f ∈ [2..6]` and no Challenge; after a
last bid, the same-quantity higher faces, the higher quantities up to
`bound` with any face in `[2..6]`, and Challenge.  The claim as frozen uses
`bound = 2×(ownDiceCount+opponentDiceCount)`; the code uses
`bound = ownDiceCount+opponentDiceCount`. -/
def spec_legal_bound (bound : ℕ) (s : LiarsDiceIS) (m : Move) : Prop :=
  match s.bid_history.getLast? with
  | none =>
      ∃ q f, m = some (q, f) ∧ 1 ≤ q ∧ q ≤ bound ∧ 2 ≤ f ∧ f ≤ 6
  | some none => False
  | some (some last) =>
      m = none ∨
      (∃ f, m = some (last.1, f) ∧ last.2 < f ∧ f ≤ 6) ∨
      (∃ q f, m = some (q, f) ∧ last.1 < q ∧ q ≤ bound ∧ 2 ≤ f ∧ f ≤ 6)

/-- From the claim's words: the number of bids the opponent has already made
(alternating turns from `turn_p1` at the start of the history) that the
candidate roll could truthfully support (count of the bid's face plus wilds
at least the bid's quantity). -/
def support_count (roll : Roll) : Bool → List Move → ℕ
  | _, [] => 0
  | turn_p1, bid :: rest =>
    (if turn_p1 then 0
     else match bid with
       | none => 0
       | some b => if roll.getD (b.2 - 1) 0 + roll.getD 0 0 ≥ b.1 then 1 else 0) +
    support_count roll (!turn_p1) rest

/-- The count of a face in a roll (a roll is the face-count vector, so this
is the entry at `face - 1`). -/
def faceCount (r : Roll) (face : ℕ) : ℕ := r.getD (face - 1) 0

/-- The count of wild (face-1) dice in a roll. -/
def wildCount (r : Roll) : ℕ := r.getD 0 0

/-- The concrete `CFRNode` exhibiting the dropped renormalization in
`get_average_strat`: cumulative strategy mass 19990 on the bid (1,2) and 10
on the bid (1,3). -/
def c3Node : CFRNode :=
  ⟨(none, []), [some (1,2), some (1,3)], fun _ => 0, fun _ => 0,
    fun m => if m = some (1,2) then 19990 else if m = some (1,3) then 10 else 0⟩

/-- The starting information set of the C2 failing playout: one die each,
own roll one 6, opening bid (1,2) already made, observer to move. -/
def c2Start : LiarsDiceIS := ⟨1, 1, some [0,0,0,0,0,1], [some (1,2)], true⟩

/-- The terminal state the C2 playout reaches (the observer challenges). -/
def c2Terminal : LiarsDiceIS := ⟨1, 1, some [0,0,0,0,0,1], [some (1,2), none], false⟩

/-! ## Theorems -/

/-- C7: for every pair of rolls and every bid history of the form
`prefix ++ [bid, Challenge]`, `score` returns +1 for the bidder's side iff
`matchCount ≥ last.quantity` and −1 otherwise, where `matchCount` counts the
bid's face plus wilds over both rolls, and the challenger's side receives
the negation (zero-sum). -/
theorem C7_score_of_challenged_bid (r1 r2 : Roll) (p : List Move) (q f : ℕ)
    (_hf1 : 1 ≤ f) (_hf6 : f ≤ 6) :
    scoreE (some r1) (some r2) (p ++ [some (q, f), none]) true =
      .ok (if faceCount r1 f + wildCount r1 + faceCount r2 f + wildCount r2 ≥ q
        then 1 else -1) ∧
    scoreE (some r1) (some r2) (p ++ [some (q, f), none]) false =
      .ok (if faceCount r1 f + wildCount r1 + faceCount r2 f + wildCount r2 ≥ q
        then -1 else 1) := by
  have hsplit : p ++ [some (q, f), none] = (p ++ [some (q, f)]) ++ [none] := by simp
  have e1 : (p ++ [some (q, f), none]).getLast? = some none := by
    rw [hsplit, List.getLast?_concat]
  have e2 : (p ++ [some (q, f), none]).dropLast.getLast? = some (some (q, f)) := by
    rw [hsplit, List.dropLast_concat, List.getLast?_concat]
  constructor <;>
    simp [scoreE, e1, e2, faceCount, wildCount]

/-- C7 witness: the claim's concrete scenario
`bidHistory = [(3,5), Challenge]`, `ownRoll=(0,0,0,0,3,0)`,
`opponentRoll=(1,0,0,0,0,0)`: matchCount 4 ≥ 3, so the bidder's side
gets +1. -/
theorem C7_score_of_challenged_bid_witness :
    scoreE (some [0,0,0,0,3,0]) (some [1,0,0,0,0,0]) [some (3, 5), none] true = .ok 1 := by
  have h := (C7_score_of_challenged_bid [0,0,0,0,3,0] [1,0,0,0,0,0] [] 3 5
    (by decide) (by decide)).1
  simpa using h

/-- C8: regret matching (`get_curr_strat`) always returns a probability
distribution over the node's legal moves: every entry is non-negative, the
entries sum to 1, and when every cumulative regret is non-positive the
strategy is the uniform distribution over the moves. -/
theorem C8_regret_matching_distribution (node : CFRNode) (probability : ℚ)
    (hne : node.moves ≠ []) (_hnd : node.moves.Nodup) :
    (∀ m ∈ node.moves, 0 ≤ (node.get_curr_strat probability).1 m) ∧
    (node.moves.map (node.get_curr_strat probability).1).sum = 1 ∧
    ((∀ m ∈ node.moves, node.total_regret m ≤ 0) →
      ∀ m ∈ node.moves, (node.get_curr_strat probability).1 m =
        1 / (node.moves.length : ℚ)) := by
  have hlen : (node.moves.length : ℚ) ≠ 0 := by
    simpa using hne
  simp only [CFRNode.get_curr_strat]
  by_cases hT : (node.moves.map (fun move => max 0 (node.total_regret move))).sum > 0
  · simp only [hT, if_pos]
    refine ⟨fun m _ => div_nonneg (le_max_left _ _) (le_of_lt hT), ?_, ?_⟩
    · have : (node.moves.map (fun move =>
          max 0 (node.total_regret move) /
            (node.moves.map (fun move => max 0 (node.total_regret move))).sum)).sum
          = (node.moves.map (fun move => max 0 (node.total_regret move))).sum /
            (node.moves.map (fun move => max 0 (node.total_regret move))).sum := by
        simp only [div_eq_mul_inv]
        exact List.sum_map_mul_right _ _ _
      rw [this, div_self (ne_of_gt hT)]
    · intro hreg
      exfalso
      have hzero : (node.moves.map (fun move => max 0 (node.total_regret move))).sum = 0 := by
        apply List.sum_eq_zero
        intro x hx
        obtain ⟨m, hm, rfl⟩ := List.mem_map.1 hx
        exact max_eq_left (hreg m hm)
      rw [hzero] at hT
      exact lt_irrefl 0 hT
  · simp only [hT, if_neg, if_false]
    refine ⟨fun m _ => by positivity, ?_, by simp⟩
    have : (node.moves.map (fun _move : Move => 1 / (node.moves.length : ℚ))) =
        List.replicate node.moves.length (1 / (node.moves.length : ℚ)) := by
      simp [List.map_const']
    rw [this, List.sum_replicate, nsmul_eq_mul, mul_one_div, div_self hlen]

/-- C8 witness: a fresh two-move node (all regrets zero) with reach
probability 1 yields the uniform distribution (1/2, 1/2). -/
theorem C8_regret_matching_distribution_witness :
    (∀ m ∈ (CFRNode.init (none, []) [some (1,2), none]).moves,
      0 ≤ ((CFRNode.init (none, []) [some (1,2), none]).get_curr_strat 1).1 m) ∧
    ((CFRNode.init (none, []) [some (1,2), none]).moves.map
      ((CFRNode.init (none, []) [some (1,2), none]).get_curr_strat 1).1).sum = 1 ∧
    ((∀ m ∈ (CFRNode.init (none, []) [some (1,2), none]).moves,
        (CFRNode.init (none, []) [some (1,2), none]).total_regret m ≤ 0) →
      ∀ m ∈ (CFRNode.init (none, []) [some (1,2), none]).moves,
        ((CFRNode.init (none, []) [some (1,2), none]).get_curr_strat 1).1 m =
          1 / ((CFRNode.init (none, []) [some (1,2), none]).moves.length : ℚ)) :=
  C8_regret_matching_distribution (CFRNode.init (none, []) [some (1,2), none]) 1
    (by decide) (by decide)

/-- C3 (code bug): `get_average_strat` normalizes to (0.9995, 0.0005), prunes
the 0.0005 entry below the 0.001 threshold to zero, but the renormalizing
division `average_strat[move] / normal_prob` is an expression statement whose
value is discarded, so the returned values over the non-pruned moves sum to
0.9995, not 1 — against the claim (and the source's own `# renormalize`
comment). -/
theorem C3_average_strat_not_renormalized :
    c3Node.get_average_strat (some (1,2)) = 1999/2000 ∧
    c3Node.get_average_strat (some (1,3)) = 0 ∧
    (c3Node.moves.map c3Node.get_average_strat).sum = 1999/2000 ∧
    (1999/2000 : ℚ) ≠ 1 := by
  refine ⟨?_, ?_, ?_, by norm_num⟩ <;>
    norm_num [CFRNode.get_average_strat, c3Node]

/-- C2 (code bug): `random_play`'s return statement scores `info_set` — the
state the playout *started* from — instead of the terminal state the loop
reached.  With the choice stream that immediately challenges, the playout
reaches `c2Terminal` (whose score against the determinization is 1), yet
`random_play` returns the score of the non-terminal start history, which is
0 — never the score of the terminal position, contradicting the claim. -/
theorem C2_random_play_scores_start_state :
    random_play_loop (fun _ => 9) 8 0 c2Start = .ok (c2Terminal, 1) ∧
    scoreE c2Terminal.player_one_roll (some [0,0,0,0,0,1]) c2Terminal.bid_history
      c2Terminal.player_one_turn = .ok 1 ∧
    random_play 8 (fun _ => 9) 0 c2Start [0,0,0,0,0,1] = .ok (0, 1) ∧
    (0 : Int) ≠ 1 := by
  refine ⟨by decide, by decide, by decide, by decide⟩

/-- Scoring a challenged history when one side's roll is still `None` always
raises (the guard passes, and every remaining path hits `bid_history[-2]`
indexing or `None` subscripting). -/
theorem scoreE_error_of_missing_roll (r1? r2? : Option Roll) (h : List Move) (b : Bool)
    (hterm : h.getLast? = some none) (hnone : r1? = none ∨ r2? = none) :
    ∃ e, scoreE r1? r2? h b = .error e := by
  unfold scoreE
  rw [if_neg (by simp [hterm])]
  rcases hdl : h.dropLast.getLast? with _ | (_ | lb)
  · exact ⟨_, rfl⟩
  · exact ⟨_, rfl⟩
  · rcases hnone with rfl | rfl
    · exact ⟨_, rfl⟩
    · cases r1? <;> exact ⟨_, rfl⟩

/-- At a decision node (neither side terminal, both rolls assigned) the
`cfr` walk raises `TypeError` immediately: the source calls
`__possible_moves__(True)` with one positional argument against a method
that accepts none, before touching `info_map`. -/
theorem cfr_decision_typeError (fuel : ℕ) (im : InfoMap) (s0 s1 : LiarsDiceIS)
    (probs : ℚ × ℚ × ℚ)
    (h0t : s0.is_terminal = false) (h1t : s1.is_terminal = false)
    (h0c : s0.is_chance = false) (h1c : s1.is_chance = false) :
    cfr (fuel + 1) im s0 s1 probs = .error .typeError := by
  have e1 : (s0.is_terminal || s1.is_terminal) = false := by simp [h0t, h1t]
  have e2 : (s0.is_chance || s1.is_chance) = false := by simp [h0c, h1c]
  simp only [cfr, e1, e2, Bool.false_eq_true, if_false]
  rfl

/-- Same as `cfr_decision_typeError` for `monte_cfr`. -/
theorem monte_cfr_decision_typeError (fuel : ℕ) (rand : ℕ → ℕ) (t : ℕ)
    (im : InfoMap) (s0 s1 : LiarsDiceIS) (probs : ℚ × ℚ × ℚ)
    (h0t : s0.is_terminal = false) (h1t : s1.is_terminal = false)
    (h0c : s0.is_chance = false) (h1c : s1.is_chance = false) :
    monte_cfr (fuel + 1) rand t im s0 s1 probs = .error .typeError := by
  have e1 : (s0.is_terminal || s1.is_terminal) = false := by simp [h0t, h1t]
  have e2 : (s0.is_chance || s1.is_chance) = false := by simp [h0c, h1c]
  simp only [monte_cfr, e1, e2, Bool.false_eq_true, if_false]
  rfl

/-- A decision node errors under any fuel (fuel exhaustion at 0, the arity
`TypeError` otherwise). -/
theorem cfr_decision_err (fuel : ℕ) (im : InfoMap) (s0 s1 : LiarsDiceIS)
    (probs : ℚ × ℚ × ℚ)
    (h0t : s0.is_terminal = false) (h1t : s1.is_terminal = false)
    (h0c : s0.is_chance = false) (h1c : s1.is_chance = false) :
    ∃ e, cfr fuel im s0 s1 probs = .error e := by
  cases fuel with
  | zero => exact ⟨_, rfl⟩
  | succ k => exact ⟨_, cfr_decision_typeError k im s0 s1 probs h0t h1t h0c h1c⟩

/-- Same as `cfr_decision_err` for `monte_cfr`. -/
theorem monte_cfr_decision_err (fuel : ℕ) (rand : ℕ → ℕ) (t : ℕ)
    (im : InfoMap) (s0 s1 : LiarsDiceIS) (probs : ℚ × ℚ × ℚ)
    (h0t : s0.is_terminal = false) (h1t : s1.is_terminal = false)
    (h0c : s0.is_chance = false) (h1c : s1.is_chance = false) :
    ∃ e, monte_cfr fuel rand t im s0 s1 probs = .error e := by
  cases fuel with
  | zero => exact ⟨_, rfl⟩
  | succ k => exact ⟨_, monte_cfr_decision_typeError k rand t im s0 s1 probs h0t h1t h0c h1c⟩

/-- The `repeatedProduct` of a non-empty base list is non-empty. -/
theorem repeatedProduct_ne_nil {l : List ℕ} (hl : l ≠ []) :
    ∀ k, repeatedProduct l k ≠ []
  | 0 => by simp [repeatedProduct]
  | k + 1 => by
    obtain ⟨x, xs, rfl⟩ := List.exists_cons_of_ne_nil hl
    have ih := repeatedProduct_ne_nil hl k
    obtain ⟨r, rs, hr⟩ := List.exists_cons_of_ne_nil ih
    simp [repeatedProduct, hr]

/-- The outcome dictionary of `generate_dice_outcomes` always has at least
one key. -/
theorem generate_dice_outcomes_keys_ne_nil (n : ℕ) :
    (generate_dice_outcomes n).1 ≠ [] := by
  have h1 : repeatedProduct (List.range' 1 NUM_FACES) n ≠ [] :=
    repeatedProduct_ne_nil (by decide) n
  have h2 : (repeatedProduct (List.range' 1 NUM_FACES) n).map count_vector ≠ [] := by
    simpa using h1
  simpa [generate_dice_outcomes, List.dedup_eq_nil] using h2

theorem except_bind_err {ε α β : Type} (x : Except ε α) (f : α → Except ε β) (e : ε)
    (hx : x = .error e) : (x >>= f) = .error e := by
  rw [hx]; rfl

theorem foldlM_first_err {ε σ α : Type} (f : σ → α → Except ε σ) (b : σ) (a : α)
    (l : List α) (e : ε) (h : f b a = .error e) : List.foldlM f b (a :: l) = .error e := by
  rw [List.foldlM_cons, h]; rfl

theorem except_map_err {ε α β : Type} (x : Except ε α) (f : α → β) (e : ε)
    (hx : x = .error e) : (f <$> x) = .error e := by
  rw [hx]; rfl

theorem cfr_from_start_err (root : LiarsDiceIS) (r : Roll)
    (hroll : root.player_one_roll = some r) (fuel : ℕ) (im : InfoMap) (probs : ℚ × ℚ × ℚ) :
    ∃ e, cfr fuel im root
      ⟨root.player_two_num_dice, root.player_one_num_dice, none,
        root.bid_history, !root.player_one_turn⟩ probs = .error e := by
  cases fuel with
  | zero => exact ⟨_, rfl⟩
  | succ k =>
    by_cases hterm : root.is_terminal = true
    · by_cases ht : root.player_one_turn = true
      · obtain ⟨e, he⟩ := scoreE_error_of_missing_roll root.player_one_roll none
          root.bid_history true
          (by simpa [LiarsDiceIS.is_terminal] using hterm) (Or.inr rfl)
        refine ⟨e, ?_⟩
        simp [cfr, hterm, ht, he]
        rfl
      · have hf : root.player_one_turn = false := by simpa using ht
        obtain ⟨e, he⟩ := scoreE_error_of_missing_roll none root.player_one_roll
          root.bid_history true
          (by simpa [LiarsDiceIS.is_terminal] using hterm) (Or.inl rfl)
        refine ⟨e, ?_⟩
        simp [cfr, hterm, hf, he]
        rfl
    · have hterm' : root.is_terminal = false := by simpa using hterm
      have hc : root.is_chance = false := by simp [LiarsDiceIS.is_chance, hroll]
      obtain ⟨k0, rest, hkeys⟩ := List.exists_cons_of_ne_nil
        (generate_dice_outcomes_keys_ne_nil root.player_two_num_dice)
      have hterm2 : (⟨root.player_two_num_dice, root.player_one_num_dice, some k0,
          root.bid_history, !root.player_one_turn⟩ : LiarsDiceIS).is_terminal = false := hterm'
      have einner : ∃ e, ∀ (im' : InfoMap) (p' : ℚ × ℚ × ℚ),
          cfr k im' root ⟨root.player_two_num_dice, root.player_one_num_dice, some k0,
            root.bid_history, !root.player_one_turn⟩ p' = .error e := by
        cases k with
        | zero => exact ⟨.outOfFuel, fun _ _ => rfl⟩
        | succ j =>
          exact ⟨.typeError, fun im' p' =>
            cfr_decision_typeError j im' _ _ p' hterm' hterm2 hc rfl⟩
      obtain ⟨e, he⟩ := einner
      refine ⟨e, ?_⟩
      have hot : (⟨root.player_two_num_dice, root.player_one_num_dice, none,
          root.bid_history, !root.player_one_turn⟩ : LiarsDiceIS).is_terminal = false := hterm'
      have hoc : (⟨root.player_two_num_dice, root.player_one_num_dice, none,
          root.bid_history, !root.player_one_turn⟩ : LiarsDiceIS).is_chance = true := rfl
      simp only [cfr]
      rw [if_neg (by simp [hterm', hot]), if_pos (by simp [hoc])]
      simp only [hc, Bool.false_eq_true, if_false]
      rw [hkeys]
      apply foldlM_first_err
      simp only []
      exact except_bind_err _ _ e (he _ _)

theorem except_bind_ok {ε α β : Type} (x : Except ε α) (a : α) (f : α → Except ε β)
    (hx : x = .ok a) : (x >>= f) = f a := by
  rw [hx]; rfl

theorem monte_cfr_from_start_err (root : LiarsDiceIS) (r : Roll)
    (hroll : root.player_one_roll = some r) (fuel : ℕ) (rand : ℕ → ℕ) (t : ℕ)
    (im : InfoMap) (probs : ℚ × ℚ × ℚ) :
    ∃ e, monte_cfr fuel rand t im root
      ⟨root.player_two_num_dice, root.player_one_num_dice, none,
        root.bid_history, !root.player_one_turn⟩ probs = .error e := by
  cases fuel with
  | zero => exact ⟨_, rfl⟩
  | succ k =>
    by_cases hterm : root.is_terminal = true
    · by_cases ht : root.player_one_turn = true
      · obtain ⟨e, he⟩ := scoreE_error_of_missing_roll root.player_one_roll none
          root.bid_history true
          (by simpa [LiarsDiceIS.is_terminal] using hterm) (Or.inr rfl)
        refine ⟨e, ?_⟩
        simp [monte_cfr, hterm, ht, he]
        rfl
      · have hf : root.player_one_turn = false := by simpa using ht
        obtain ⟨e, he⟩ := scoreE_error_of_missing_roll none root.player_one_roll
          root.bid_history true
          (by simpa [LiarsDiceIS.is_terminal] using hterm) (Or.inl rfl)
        refine ⟨e, ?_⟩
        simp [monte_cfr, hterm, hf, he]
        rfl
    · have hterm' : root.is_terminal = false := by simpa using hterm
      have hc : root.is_chance = false := by simp [LiarsDiceIS.is_chance, hroll]
      have hot : (⟨root.player_two_num_dice, root.player_one_num_dice, none,
          root.bid_history, !root.player_one_turn⟩ : LiarsDiceIS).is_terminal = false := hterm'
      have hoc : (⟨root.player_two_num_dice, root.player_one_num_dice, none,
          root.bid_history, !root.player_one_turn⟩ : LiarsDiceIS).is_chance = true := rfl
      rcases hgm : get_move_from_strat (generate_dice_outcomes root.player_two_num_dice).1
          (generate_dice_outcomes root.player_two_num_dice).2 (rand t) with e' | outcome
      · refine ⟨e', ?_⟩
        simp only [monte_cfr]
        rw [if_neg (by simp [hterm', hot]), if_pos (by simp [hoc])]
        simp only [hc, Bool.false_eq_true, if_false]
        exact except_bind_err _ _ e' hgm
      · have hterm2 : (⟨root.player_two_num_dice, root.player_one_num_dice, some outcome,
            root.bid_history, !root.player_one_turn⟩ : LiarsDiceIS).is_terminal = false := hterm'
        have einner : ∃ e, ∀ (t' : ℕ) (im' : InfoMap) (p' : ℚ × ℚ × ℚ),
            monte_cfr k rand t' im' root ⟨root.player_two_num_dice, root.player_one_num_dice,
              some outcome, root.bid_history, !root.player_one_turn⟩ p' = .error e := by
          cases k with
          | zero => exact ⟨.outOfFuel, fun _ _ _ => rfl⟩
          | succ j =>
            exact ⟨.typeError, fun t' im' p' =>
              monte_cfr_decision_typeError j rand t' im' _ _ p' hterm' hterm2 hc rfl⟩
        obtain ⟨e, he⟩ := einner
        refine ⟨e, ?_⟩
        simp only [monte_cfr]
        rw [if_neg (by simp [hterm', hot]), if_pos (by simp [hoc])]
        simp only [hc, Bool.false_eq_true, if_false]
        rw [except_bind_ok _ _ _ hgm]
        exact except_bind_err _ _ e (he _ _ _)

theorem get_cfr_err (root : LiarsDiceIS) (r : Roll) (hroll : root.player_one_roll = some r)
    (iters fuel d : ℕ) : ∃ e, get_cfr iters fuel d root = .error e := by
  cases iters with
  | zero =>
    refine ⟨.keyError, ?_⟩
    simp [get_cfr, lookupKey]
  | succ n =>
    obtain ⟨e, he⟩ := cfr_from_start_err root r hroll fuel [] (1, 1, 1)
    refine ⟨e, ?_⟩
    simp only [get_cfr]
    apply except_bind_err
    rw [List.range_succ_eq_map]
    apply foldlM_first_err
    exact except_bind_err _ _ e he

theorem get_monte_cfr_err (root : LiarsDiceIS) (r : Roll)
    (hroll : root.player_one_roll = some r) (iters fuel d : ℕ) (rand : ℕ → ℕ) :
    ∃ e, get_monte_cfr iters fuel rand d root = .error e := by
  cases iters with
  | zero =>
    refine ⟨.keyError, ?_⟩
    simp [get_monte_cfr, lookupKey]
  | succ n =>
    obtain ⟨e, he⟩ := monte_cfr_from_start_err root r hroll fuel rand 0 [] (1, 1, 1)
    refine ⟨e, ?_⟩
    simp only [get_monte_cfr]
    apply except_bind_err
    rw [List.range_succ_eq_map]
    apply foldlM_first_err
    exact except_bind_err _ _ e he

/-- C1: at every decision node (neither side terminal, both rolls assigned)
the CFR engines call `__possible_moves__(True)` — one positional argument
against a method accepting only `self` — so the evaluation raises
`TypeError`; consequently `get_cfr` and `get_monte_cfr` never return a move
for a root whose evaluation visits a decision node (every non-terminal
root). -/
theorem C1_possible_moves_arity_error
    (im : InfoMap) (s0 s1 : LiarsDiceIS) (probs : ℚ × ℚ × ℚ) (fuel : ℕ)
    (rand : ℕ → ℕ) (t : ℕ) (root : LiarsDiceIS) (r : Roll) (iters fuel2 d : ℕ)
    (h0t : s0.is_terminal = false) (h1t : s1.is_terminal = false)
    (h0c : s0.is_chance = false) (h1c : s1.is_chance = false)
    (hroll : root.player_one_roll = some r) (_hroot : root.is_terminal = false) :
    cfr (fuel + 1) im s0 s1 probs = .error .typeError ∧
    monte_cfr (fuel + 1) rand t im s0 s1 probs = .error .typeError ∧
    (get_cfr iters fuel2 d root).isOk = false ∧
    (get_monte_cfr iters fuel2 rand d root).isOk = false := by
  refine ⟨cfr_decision_typeError fuel im s0 s1 probs h0t h1t h0c h1c,
    monte_cfr_decision_typeError fuel rand t im s0 s1 probs h0t h1t h0c h1c, ?_, ?_⟩
  · obtain ⟨e, he⟩ := get_cfr_err root r hroll iters fuel2 d
    simp [he, Except.isOk, Except.toBool]
  · obtain ⟨e, he⟩ := get_monte_cfr_err root r hroll iters fuel2 d rand
    simp [he, Except.isOk, Except.toBool]

/-- C1 witness: a concrete decision node (both rolls set, history
`[(1,2)]`) and a concrete non-terminal root. -/
theorem C1_possible_moves_arity_error_witness :
    cfr 1 [] ⟨1, 1, some [0,0,0,0,0,1], [some (1,2)], true⟩
      ⟨1, 1, some [1,0,0,0,0,0], [some (1,2)], false⟩ (1, 1, 1) = .error .typeError ∧
    monte_cfr 1 (fun _ => 0) 0 [] ⟨1, 1, some [0,0,0,0,0,1], [some (1,2)], true⟩
      ⟨1, 1, some [1,0,0,0,0,0], [some (1,2)], false⟩ (1, 1, 1) = .error .typeError ∧
    (get_cfr 1 5 0 ⟨1, 1, some [0,0,0,0,0,1], [some (1,2)], true⟩).isOk = false ∧
    (get_monte_cfr 1 5 (fun _ => 0) 0
      ⟨1, 1, some [0,0,0,0,0,1], [some (1,2)], true⟩).isOk = false :=
  C1_possible_moves_arity_error [] _ _ (1, 1, 1) 0 (fun _ => 0) 0
    ⟨1, 1, some [0,0,0,0,0,1], [some (1,2)], true⟩ [0,0,0,0,0,1] 1 5 0
    (by decide) (by decide) (by decide) (by decide) (by decide) (by decide)

/-- C6: calling any of the three engines on a terminal root (history ending
in Challenge) raises instead of returning a move: `mcts` raises its explicit
`ValueError`, and the CFR engines error in every case (scoring against the
roll-less opponent state raises, and with no completed iteration the
`info_map[info_key]` lookup raises `KeyError`). -/
theorem C6_engines_raise_on_terminal
    (root : LiarsDiceIS) (r : Roll) (iters fuel d : ℕ) (bluffs : ℕ → Bool)
    (rand : ℕ → ℕ)
    (hroll : root.player_one_roll = some r) (hterm : root.is_terminal = true) :
    mcts iters fuel bluffs rand root = .error .valueError ∧
    (get_cfr iters fuel d root).isOk = false ∧
    (get_monte_cfr iters fuel rand d root).isOk = false := by
  refine ⟨by simp [mcts, hterm], ?_, ?_⟩
  · obtain ⟨e, he⟩ := get_cfr_err root r hroll iters fuel d
    simp [he, Except.isOk, Except.toBool]
  · obtain ⟨e, he⟩ := get_monte_cfr_err root r hroll iters fuel d rand
    simp [he, Except.isOk, Except.toBool]

/-- C6 witness: the terminal root `[(1,2), Challenge]`. -/
theorem C6_engines_raise_on_terminal_witness :
    mcts 3 10 (fun _ => false) (fun _ => 0)
      ⟨1, 1, some [0,0,0,0,0,1], [some (1,2), none], true⟩ = .error .valueError ∧
    (get_cfr 3 10 0 ⟨1, 1, some [0,0,0,0,0,1], [some (1,2), none], true⟩).isOk = false ∧
    (get_monte_cfr 3 10 (fun _ => 0) 0
      ⟨1, 1, some [0,0,0,0,0,1], [some (1,2), none], true⟩).isOk = false :=
  C6_engines_raise_on_terminal ⟨1, 1, some [0,0,0,0,0,1], [some (1,2), none], true⟩
    [0,0,0,0,0,1] 3 10 0 (fun _ => false) (fun _ => 0) (by decide) (by decide)

/-- Membership in the Cartesian power: the tuples of length `k` over `l`. -/
theorem mem_repeatedProduct {l : List ℕ} {k : ℕ} {r : List ℕ} :
    r ∈ repeatedProduct l k ↔ r.length = k ∧ ∀ x ∈ r, x ∈ l := by
  induction k generalizing r with
  | zero =>
    simp [repeatedProduct, List.length_eq_zero]
    rintro rfl; simp
  | succ k ih =>
    simp only [repeatedProduct, List.mem_flatMap, List.mem_map]
    constructor
    · rintro ⟨x, hx, r', hr', rfl⟩
      obtain ⟨hlen, hall⟩ := ih.1 hr'
      refine ⟨by simp [hlen], ?_⟩
      intro y hy
      rcases List.mem_cons.1 hy with rfl | hy
      · exact hx
      · exact hall y hy
    · rintro ⟨hlen, hall⟩
      rcases r with _ | ⟨x, r'⟩
      · simp at hlen
      · exact ⟨x, hall x (List.mem_cons_self _ _), r',
          ih.2 ⟨by simpa using hlen, fun y hy => hall y (List.mem_cons_of_mem _ hy)⟩, rfl⟩

/-- The candidate-roll list is never empty: it contains `[n,0,0,0,0,0]`. -/
theorem generate_roll_tuples_ne_nil (n : ℕ) : generate_roll_tuples n ≠ [] := by
  have hmem : (n :: List.replicate 5 0) ∈ generate_roll_tuples n := by
    unfold generate_roll_tuples
    rw [List.mem_filter]
    refine ⟨mem_repeatedProduct.2 ⟨by simp [NUM_FACES], ?_⟩, by simp⟩
    intro x hx
    rcases List.mem_cons.1 hx with rfl | hx
    · simp [List.mem_range]
    · rw [List.eq_of_mem_replicate hx]
      simp [List.mem_range]
  intro h
  rw [h] at hmem
  exact absurd hmem (List.not_mem_nil _)

/-- On a history of proper bids, the weight loop returns
`(1/EPSILON) ^ (number of supported opponent bids)`. -/
theorem roll_weight_ok (roll : Roll) (h : List Move) (hp : ∀ m ∈ h, m.isSome) (turn : Bool) :
    roll_weight roll turn h = .ok ((1 / EPSILON) ^ support_count roll turn h) := by
  induction h generalizing turn with
  | nil => simp [roll_weight, support_count]
  | cons bid rest ih =>
    have hp' : ∀ m ∈ rest, m.isSome := fun m hm => hp m (List.mem_cons_of_mem _ hm)
    cases turn with
    | true => simp [roll_weight, support_count, ih hp']
    | false =>
      obtain ⟨b, rfl⟩ : ∃ b, bid = some b := by
        rcases bid with _ | b
        · exact absurd (hp none (List.mem_cons_self _ _)) (by simp)
        · exact ⟨b, rfl⟩
      simp [roll_weight, support_count, ih hp']
      split_ifs with hc
      · rw [pow_add, pow_one, mul_inv]
      · rw [zero_add]

/-- Mapping an error-free function over a list succeeds with the mapped
values. -/
theorem mapM_ok {α β : Type} (f : α → Except PyErr β) (g : α → β) (l : List α)
    (hf : ∀ x ∈ l, f x = .ok (g x)) : l.mapM f = .ok (l.map g) := by
  induction l with
  | nil => rfl
  | cons x xs ih =>
    rw [List.mapM_cons, hf x (List.mem_cons_self _ _),
      ih (fun y hy => hf y (List.mem_cons_of_mem _ hy))]
    rfl

/-- On a history of proper bids the Bayesian determinization distribution
succeeds with the normalized `(1/EPSILON)^supportCount` weights. -/
theorem bayesian_ok (n : ℕ) (h : List Move) (turn : Bool)
    (hp : ∀ m ∈ h, m.isSome) :
    bayesian_determinization_distribution n h turn =
      .ok (generate_roll_tuples n,
        (generate_roll_tuples n).map (fun r =>
          (1 / EPSILON) ^ support_count r turn h /
            ((generate_roll_tuples n).map
              (fun q => (1 / EPSILON) ^ support_count q turn h)).sum)) := by
  simp only [bayesian_determinization_distribution]
  rw [mapM_ok _ (fun r => (1 / EPSILON) ^ support_count r turn h) _
    (fun r _ => roll_weight_ok r h hp turn)]
  have htot : ((generate_roll_tuples n).map
      (fun q => (1 / EPSILON) ^ support_count q turn h)).sum ≠ 0 := by
    apply ne_of_gt
    apply List.sum_pos
    · intro x hx
      obtain ⟨q, _, rfl⟩ := List.mem_map.1 hx
      apply pow_pos
      norm_num [EPSILON]
    · simp [generate_roll_tuples_ne_nil n]
  rw [except_bind_ok _ _ _ rfl, if_neg htot]
  simp only [List.map_map]
  rfl

/-- A non-terminal state always has at least one legal move. -/
theorem possible_moves_ne_nil (s : LiarsDiceIS) (hterm : s.is_terminal = false) :
    s.possible_moves ≠ [] := by
  unfold LiarsDiceIS.possible_moves
  rcases hl : s.bid_history.getLast? with _ | (_ | lb)
  · simp
  · exfalso
    simp [LiarsDiceIS.is_terminal, hl] at hterm
  · simp

/-- With a zero time budget the MCTS loop body never runs, the root is
unexpanded, and `mcts` falls through to the uniformly-random-move branch. -/
theorem mcts_zero_iters (fuel : ℕ) (bluffs : ℕ → Bool) (rand : ℕ → ℕ)
    (root : LiarsDiceIS) (hterm : root.is_terminal = false)
    (hturn : root.player_one_turn = true)
    (hp : ∀ m ∈ root.bid_history, m.isSome) :
    mcts 0 fuel bluffs rand root = randChoice root.possible_moves (rand 0) := by
  simp only [mcts, hterm, Bool.false_eq_true, if_false]
  rw [bayesian_ok root.player_two_num_dice root.bid_history _ hp]
  simp [memoFind, ISNode.is_expanded, ISNode.init, hturn]
  rfl

/-- C5 counterexample: with a zero time budget (no completed iteration, so no
statistics exist for the queried decision node) on a concrete non-terminal
root, `mcts` does not raise — it returns the legal move (1,3) — refuting the
claim that every engine surfaces an error in this situation. -/
theorem C5_counterexample_mcts_returns_move :
    mcts 0 10 (fun _ => false) (fun _ => 0)
      ⟨1, 1, some [0,0,0,0,0,1], [some (1,2)], true⟩ = .ok (some (1, 3)) := by
  rw [mcts_zero_iters 10 (fun _ => false) (fun _ => 0)
    ⟨1, 1, some [0,0,0,0,0,1], [some (1,2)], true⟩ (by decide) (by decide) (by decide)]
  decide

/-- C5 amended: when the time budget elapses before any iteration completes,
`get_cfr` and `get_monte_cfr` raise `KeyError` on the uncollected
decision-node key, but `mcts` does not raise: on a non-terminal
observer-turn root it falls back to a uniformly random legal move. -/
theorem C5_zero_budget_behaviour
    (root : LiarsDiceIS) (fuel d : ℕ) (rand : ℕ → ℕ) (bluffs : ℕ → Bool)
    (hterm : root.is_terminal = false) (hturn : root.player_one_turn = true)
    (hp : ∀ m ∈ root.bid_history, m.isSome) :
    get_cfr 0 fuel d root = .error .keyError ∧
    get_monte_cfr 0 fuel rand d root = .error .keyError ∧
    ∃ m ∈ root.possible_moves, mcts 0 fuel bluffs rand root = .ok m := by
  refine ⟨by simp [get_cfr, lookupKey], by simp [get_monte_cfr, lookupKey], ?_⟩
  rw [mcts_zero_iters fuel bluffs rand root hterm hturn hp]
  obtain ⟨x, xs, hx⟩ := List.exists_cons_of_ne_nil (possible_moves_ne_nil root hterm)
  rw [hx]
  have hidx : rand 0 % (x :: xs).length < (x :: xs).length :=
    Nat.mod_lt _ (by simp)
  refine ⟨(x :: xs).getD (rand 0 % (x :: xs).length) x, ?_, ?_⟩
  · rw [List.getD_eq_getElem _ _ hidx]
    exact List.getElem_mem _
  · rfl

/-- C5 amended witness: the concrete non-terminal root with an opening bid
made. -/
theorem C5_zero_budget_behaviour_witness :
    get_cfr 0 7 3 ⟨1, 1, some [0,0,0,0,0,1], [some (1,2)], true⟩ = .error .keyError ∧
    get_monte_cfr 0 7 (fun _ => 1) 3
      ⟨1, 1, some [0,0,0,0,0,1], [some (1,2)], true⟩ = .error .keyError ∧
    ∃ m ∈ (⟨1, 1, some [0,0,0,0,0,1], [some (1,2)], true⟩ : LiarsDiceIS).possible_moves,
      mcts 0 7 (fun _ => true) (fun _ => 1)
        ⟨1, 1, some [0,0,0,0,0,1], [some (1,2)], true⟩ = .ok m :=
  C5_zero_budget_behaviour ⟨1, 1, some [0,0,0,0,0,1], [some (1,2)], true⟩ 7 3
    (fun _ => 1) (fun _ => true) (by decide) (by decide) (by decide)

/-- C9: for every opponent dice count and bid history (of proper bids), the
determinization posterior succeeds, assigns each candidate roll the
normalization of `(1/ε)^(number of opponent bids the roll could truthfully
support)`, every weight is non-negative, and the weights sum to 1. -/
theorem C9_bayesian_posterior_distribution (n : ℕ) (h : List Move) (turn : Bool)
    (_hn : 1 ≤ n) (hp : ∀ m ∈ h, m.isSome) :
    bayesian_determinization_distribution n h turn =
      .ok (generate_roll_tuples n,
        (generate_roll_tuples n).map (fun r =>
          (1 / EPSILON) ^ support_count r turn h /
            ((generate_roll_tuples n).map
              (fun q => (1 / EPSILON) ^ support_count q turn h)).sum)) ∧
    (∀ w ∈ (generate_roll_tuples n).map (fun r =>
        (1 / EPSILON) ^ support_count r turn h /
          ((generate_roll_tuples n).map
            (fun q => (1 / EPSILON) ^ support_count q turn h)).sum), 0 ≤ w) ∧
    ((generate_roll_tuples n).map (fun r =>
        (1 / EPSILON) ^ support_count r turn h /
          ((generate_roll_tuples n).map
            (fun q => (1 / EPSILON) ^ support_count q turn h)).sum)).sum = 1 := by
  have hT : 0 < ((generate_roll_tuples n).map
      (fun q => (1 / EPSILON) ^ support_count q turn h)).sum := by
    apply List.sum_pos
    · intro x hx
      obtain ⟨q, _, rfl⟩ := List.mem_map.1 hx
      apply pow_pos
      norm_num [EPSILON]
    · simp [generate_roll_tuples_ne_nil n]
  refine ⟨bayesian_ok n h turn hp, ?_, ?_⟩
  · intro w hw
    obtain ⟨r, _, rfl⟩ := List.mem_map.1 hw
    apply div_nonneg _ hT.le
    apply pow_nonneg
    norm_num [EPSILON]
  · have : ((generate_roll_tuples n).map (fun r =>
        (1 / EPSILON) ^ support_count r turn h /
          ((generate_roll_tuples n).map
            (fun q => (1 / EPSILON) ^ support_count q turn h)).sum)).sum =
        ((generate_roll_tuples n).map
          (fun q => (1 / EPSILON) ^ support_count q turn h)).sum *
          (((generate_roll_tuples n).map
            (fun q => (1 / EPSILON) ^ support_count q turn h)).sum)⁻¹ := by
      simp only [div_eq_mul_inv]
      exact List.sum_map_mul_right _ _ _
    rw [this, mul_inv_cancel₀ (ne_of_gt hT)]

/-- C9 witness: one opponent die, history `[(1,2)]` with the opponent having
made the opening bid. -/
theorem C9_bayesian_posterior_distribution_witness :
    bayesian_determinization_distribution 1 [some (1, 2)] false =
      .ok (generate_roll_tuples 1,
        (generate_roll_tuples 1).map (fun r =>
          (1 / EPSILON) ^ support_count r false [some (1, 2)] /
            ((generate_roll_tuples 1).map
              (fun q => (1 / EPSILON) ^ support_count q false [some (1, 2)])).sum)) ∧
    (∀ w ∈ (generate_roll_tuples 1).map (fun r =>
        (1 / EPSILON) ^ support_count r false [some (1, 2)] /
          ((generate_roll_tuples 1).map
            (fun q => (1 / EPSILON) ^ support_count q false [some (1, 2)])).sum), 0 ≤ w) ∧
    ((generate_roll_tuples 1).map (fun r =>
        (1 / EPSILON) ^ support_count r false [some (1, 2)] /
          ((generate_roll_tuples 1).map
            (fun q => (1 / EPSILON) ^ support_count q false [some (1, 2)])).sum)).sum = 1 :=
  C9_bayesian_posterior_distribution 1 [some (1, 2)] false (by decide) (by decide)

/-- Membership in the same-quantity bid row. -/
theorem mem_same_quantity_bids {lb : ℕ × ℕ} {m : Move} :
    m ∈ LiarsDiceIS.same_quantity_bids lb ↔
      ∃ f, m = some (lb.1, f) ∧ lb.2 < f ∧ f ≤ 6 := by
  simp only [LiarsDiceIS.same_quantity_bids, List.mem_map, List.mem_range'_1, NUM_FACES]
  constructor
  · rintro ⟨f, ⟨h1, h2⟩, rfl⟩
    exact ⟨f, rfl, by omega, by omega⟩
  · rintro ⟨f, rfl, h1, h2⟩
    exact ⟨f, ⟨by omega, by omega⟩, rfl⟩

/-- Membership in the higher-quantity bid block. -/
theorem mem_higher_quantity_bids {lb : ℕ × ℕ} {D : ℕ} {m : Move} :
    m ∈ LiarsDiceIS.higher_quantity_bids lb D ↔
      ∃ q f, m = some (q, f) ∧ lb.1 < q ∧ q ≤ D ∧ 2 ≤ f ∧ f ≤ 6 := by
  simp only [LiarsDiceIS.higher_quantity_bids, List.mem_flatMap, List.mem_map,
    List.mem_range'_1, NUM_FACES]
  constructor
  · rintro ⟨q, ⟨hq1, hq2⟩, f, ⟨hf1, hf2⟩, rfl⟩
    exact ⟨q, f, rfl, by omega, by omega, by omega, by omega⟩
  · rintro ⟨q, f, rfl, h1, h2, h3, h4⟩
    exact ⟨q, ⟨by omega, by omega⟩, f, ⟨by omega, by omega⟩, rfl⟩

/-- C4 (amended): on a non-terminal information set with at least one die in
play, `possible_moves` returns exactly the claim's legal-move set with the
quantity cap `ownDiceCount + opponentDiceCount` (the total number of dice in
play) in place of the claim's `2×(ownDiceCount + opponentDiceCount)`. -/
theorem C4_possible_moves_characterization (s : LiarsDiceIS) (m : Move)
    (hterm : s.is_terminal = false)
    (hD : 1 ≤ s.player_one_num_dice + s.player_two_num_dice) :
    m ∈ s.possible_moves ↔
      spec_legal_bound (s.player_one_num_dice + s.player_two_num_dice) s m := by
  rcases hl : s.bid_history.getLast? with _ | (_ | lb) <;>
    simp only [LiarsDiceIS.possible_moves, spec_legal_bound, hl]
  · simp only [List.mem_cons, List.mem_append, mem_same_quantity_bids,
      mem_higher_quantity_bids]
    constructor
    · rintro ((rfl | ⟨f, rfl, h1, h2⟩) | ⟨q, f, rfl, h1, h2, h3, h4⟩)
      · exact ⟨1, 2, rfl, by omega, hD, by omega, by omega⟩
      · exact ⟨1, f, rfl, by omega, hD, by omega, h2⟩
      · exact ⟨q, f, rfl, by omega, h2, h3, h4⟩
    · rintro ⟨q, f, rfl, h1, h2, h3, h4⟩
      by_cases hq : q = 1
      · subst hq
        by_cases hf : f = 2
        · subst hf
          exact Or.inl (Or.inl rfl)
        · exact Or.inl (Or.inr ⟨f, rfl, by omega, h4⟩)
      · exact Or.inr ⟨q, f, rfl, by omega, h2, h3, h4⟩
  · exfalso
    simp [LiarsDiceIS.is_terminal, hl] at hterm
  · simp only [List.mem_append, mem_same_quantity_bids, mem_higher_quantity_bids,
      List.mem_singleton]
    constructor
    · rintro ((⟨f, rfl, h1, h2⟩ | ⟨q, f, rfl, h1, h2, h3, h4⟩) | rfl)
      · exact Or.inr (Or.inl ⟨f, rfl, h1, h2⟩)
      · exact Or.inr (Or.inr ⟨q, f, rfl, h1, h2, h3, h4⟩)
      · exact Or.inl rfl
    · rintro (rfl | ⟨f, rfl, h1, h2⟩ | ⟨q, f, rfl, h1, h2, h3, h4⟩)
      · exact Or.inr rfl
      · exact Or.inl (Or.inl ⟨f, rfl, h1, h2⟩)
      · exact Or.inl (Or.inr ⟨q, f, rfl, h1, h2, h3, h4⟩)

/-- C4 counterexample: at the concrete info set (one die each, last bid
(1,2)), the claim's cap `2×(ownDiceCount+opponentDiceCount) = 4` admits the
bid (3,2), but `possible_moves` (which stops at
`ownDiceCount+opponentDiceCount = 2`, as the source's
`range(last_bid[0] + 1, self.player_one_num_dice + self.player_two_num_dice + 1)`
does) does not contain it. -/
theorem C4_counterexample_quantity_cap :
    spec_legal_bound
      (2 * ((⟨1, 1, some [0,0,0,0,0,1], [some (1,2)], true⟩ : LiarsDiceIS).player_one_num_dice +
        (⟨1, 1, some [0,0,0,0,0,1], [some (1,2)], true⟩ : LiarsDiceIS).player_two_num_dice))
      ⟨1, 1, some [0,0,0,0,0,1], [some (1,2)], true⟩ (some (3, 2)) ∧
    some (3, 2) ∉
      (⟨1, 1, some [0,0,0,0,0,1], [some (1,2)], true⟩ : LiarsDiceIS).possible_moves := by
  constructor
  · exact Or.inr (Or.inr ⟨3, 2, rfl, by decide, by decide, by decide, by decide⟩)
  · decide

/-- C4 amended witness: the characterization at the concrete info set and
the move (2,3). -/
theorem C4_possible_moves_characterization_witness :
    some (2, 3) ∈ (⟨1, 1, some [0,0,0,0,0,1], [some (1,2)], true⟩ : LiarsDiceIS).possible_moves ↔
      spec_legal_bound
        ((⟨1, 1, some [0,0,0,0,0,1], [some (1,2)], true⟩ : LiarsDiceIS).player_one_num_dice +
          (⟨1, 1, some [0,0,0,0,0,1], [some (1,2)], true⟩ : LiarsDiceIS).player_two_num_dice)
        ⟨1, 1, some [0,0,0,0,0,1], [some (1,2)], true⟩ (some (2, 3)) :=
  C4_possible_moves_characterization ⟨1, 1, some [0,0,0,0,0,1], [some (1,2)], true⟩
    (some (2, 3)) (by decide) (by decide)

/-- The `count_vector` written out over the six faces. -/
theorem count_vector_eq (l : List ℕ) :
    count_vector l = [l.count 1, l.count 2, l.count 3, l.count 4, l.count 5, l.count 6] := rfl

/-- A list of length 6 is a sextuple. -/
theorem exists_six_of_length (c : List ℕ) (hc : c.length = 6) :
    ∃ a b d e f g, c = [a, b, d, e, f, g] := by
  rcases c with _ | ⟨a, c⟩; · simp at hc
  rcases c with _ | ⟨b, c⟩; · simp at hc
  rcases c with _ | ⟨d, c⟩; · simp at hc
  rcases c with _ | ⟨e, c⟩; · simp at hc
  rcases c with _ | ⟨f, c⟩; · simp at hc
  rcases c with _ | ⟨g, c⟩; · simp at hc
  rcases c with _ | ⟨h, c⟩
  · exact ⟨a, b, d, e, f, g, rfl⟩
  · simp at hc

/-- The face counts of a roll over faces 1..6 sum to the number of dice. -/
theorem count_vector_sum : ∀ (roll : List ℕ), (∀ x ∈ roll, 1 ≤ x ∧ x ≤ 6) →
    (count_vector roll).sum = roll.length
  | [], _ => by simp [count_vector_eq]
  | x :: r, hx => by
    have hxr := hx x (List.mem_cons_self _ _)
    have ih := count_vector_sum r (fun y hy => hx y (List.mem_cons_of_mem _ hy))
    rw [count_vector_eq] at ih ⊢
    simp only [List.sum_cons, List.sum_nil, List.count_cons, List.length_cons] at ih ⊢
    obtain ⟨hx1, hx6⟩ := hxr
    interval_cases x <;> simp_all <;> omega

/-- The keys of `generate_dice_outcomes n` are exactly the 6-tuples of
non-negative integers summing to `n`. -/
theorem generate_dice_outcomes_keys_iff (n : ℕ) (c : List ℕ) :
    c ∈ (generate_dice_outcomes n).1 ↔ c.length = 6 ∧ c.sum = n := by
  simp only [generate_dice_outcomes, List.mem_dedup, List.mem_map]
  constructor
  · rintro ⟨roll, hroll, rfl⟩
    obtain ⟨hlen, hall⟩ := mem_repeatedProduct.1 hroll
    have hall' : ∀ x ∈ roll, 1 ≤ x ∧ x ≤ 6 := by
      intro x hxm
      have hm := hall x hxm
      rw [List.mem_range'_1] at hm
      simp only [NUM_FACES] at hm
      omega
    exact ⟨by simp [count_vector_eq], by rw [count_vector_sum roll hall', hlen]⟩
  · rintro ⟨hlen, hsum⟩
    obtain ⟨c1, c2, c3, c4, c5, c6, rfl⟩ := exists_six_of_length c hlen
    refine ⟨List.replicate c1 1 ++ List.replicate c2 2 ++ List.replicate c3 3 ++
      List.replicate c4 4 ++ List.replicate c5 5 ++ List.replicate c6 6,
      mem_repeatedProduct.2 ⟨?_, ?_⟩, ?_⟩
    · simp at hsum ⊢
      omega
    · intro x hxm
      simp only [List.mem_append, List.mem_replicate] at hxm
      rw [List.mem_range'_1]
      simp only [NUM_FACES]
      rcases hxm with ((((⟨_, rfl⟩ | ⟨_, rfl⟩) | ⟨_, rfl⟩) | ⟨_, rfl⟩) | ⟨_, rfl⟩) | ⟨_, rfl⟩ <;>
        omega
    · rw [count_vector_eq]
      simp [List.count_append, List.count_replicate]

/-- The sum of a length-6 list read through `getD` over `Fin 6`. -/
theorem sum_getD_six (c : List ℕ) (hc : c.length = 6) :
    ∑ j : Fin 6, c.getD (j : ℕ) 0 = c.sum := by
  obtain ⟨a, b, d, e, f, g, rfl⟩ := exists_six_of_length c hc
  rw [Fin.sum_univ_six]
  simp only [show ((0:Fin 6):ℕ) = 0 from rfl, show ((1:Fin 6):ℕ) = 1 from rfl,
    show ((2:Fin 6):ℕ) = 2 from rfl, show ((3:Fin 6):ℕ) = 3 from rfl,
    show ((4:Fin 6):ℕ) = 4 from rfl, show ((5:Fin 6):ℕ) = 5 from rfl]
  simp [List.getD]
  omega

/-- The multinomial probability of a face-count vector equals the
multinomial-theorem summand for the constant function `1/6`. -/
theorem multinomial_prob_eq_summand (n : ℕ) (c : List ℕ)
    (hlen : c.length = 6) (hsum : c.sum = n) :
    multinomial_prob n c =
      (Nat.multinomial Finset.univ (fun j : Fin 6 => c.getD (j : ℕ) 0) : ℚ) *
        ∏ j : Fin 6, (1/6 : ℚ) ^ (c.getD (j : ℕ) 0) := by
  have hs : ∑ j : Fin 6, c.getD (j : ℕ) 0 = n := by rw [sum_getD_six c hlen, hsum]
  have hprodpow : ∏ j : Fin 6, (1/6 : ℚ) ^ (c.getD (j : ℕ) 0) = (1/6 : ℚ) ^ n := by
    rw [Finset.prod_pow_eq_pow_sum, hs]
  rw [hprodpow]
  have hspec := Nat.multinomial_spec (Finset.univ : Finset (Fin 6))
    (fun j : Fin 6 => c.getD (j : ℕ) 0)
  rw [hs] at hspec
  obtain ⟨a, b, d, e, f, g, rfl⟩ := exists_six_of_length c hlen
  have hprodfact : ∏ j : Fin 6, Nat.factorial ([a,b,d,e,f,g].getD (j : ℕ) 0) =
      a.factorial * b.factorial * d.factorial * e.factorial * f.factorial * g.factorial := by
    rw [Fin.prod_univ_six]
    simp only [show ((0:Fin 6):ℕ) = 0 from rfl, show ((1:Fin 6):ℕ) = 1 from rfl,
      show ((2:Fin 6):ℕ) = 2 from rfl, show ((3:Fin 6):ℕ) = 3 from rfl,
      show ((4:Fin 6):ℕ) = 4 from rfl, show ((5:Fin 6):ℕ) = 5 from rfl]
    simp [List.getD]
  rw [hprodfact] at hspec
  have hden : ((a.factorial : ℚ) * b.factorial * d.factorial * e.factorial *
      f.factorial * g.factorial) ≠ 0 := by
    positivity
  have hcast : ((a.factorial : ℚ) * b.factorial * d.factorial * e.factorial *
      f.factorial * g.factorial) *
      (Nat.multinomial Finset.univ (fun j : Fin 6 => [a,b,d,e,f,g].getD (j : ℕ) 0) : ℚ) =
      (n.factorial : ℚ) := by
    exact_mod_cast congrArg (Nat.cast (R := ℚ)) hspec
  unfold multinomial_prob
  congr 1
  simp only [show ([a,b,d,e,f,g] : List ℕ).getD 0 0 = a from rfl,
    show ([a,b,d,e,f,g] : List ℕ).getD 1 0 = b from rfl,
    show ([a,b,d,e,f,g] : List ℕ).getD 2 0 = d from rfl,
    show ([a,b,d,e,f,g] : List ℕ).getD 3 0 = e from rfl,
    show ([a,b,d,e,f,g] : List ℕ).getD 4 0 = f from rfl,
    show ([a,b,d,e,f,g] : List ℕ).getD 5 0 = g from rfl]
  rw [div_eq_iff hden, ← hcast]
  ring

/-- The probabilities of `generate_dice_outcomes` sum to 1. -/
theorem generate_dice_outcomes_sum_one (n : ℕ) :
    ((generate_dice_outcomes n).1.map (generate_dice_outcomes n).2).sum = 1 := by
  classical
  have hnd : (generate_dice_outcomes n).1.Nodup := List.nodup_dedup _
  rw [← List.sum_toFinset _ hnd]
  have hbij : ((generate_dice_outcomes n).1.toFinset.sum (generate_dice_outcomes n).2) =
      ∑ k ∈ Finset.piAntidiag (Finset.univ : Finset (Fin 6)) n,
        (Nat.multinomial Finset.univ k : ℚ) * ∏ j : Fin 6, (1/6 : ℚ) ^ k j := by
    apply Finset.sum_nbij' (fun c => fun j : Fin 6 => c.getD (j : ℕ) 0)
      (fun k => List.ofFn k)
    · intro c hc
      rw [List.mem_toFinset, generate_dice_outcomes_keys_iff] at hc
      rw [Finset.mem_piAntidiag]
      exact ⟨by rw [sum_getD_six c hc.1, hc.2], fun i _ => Finset.mem_univ i⟩
    · intro k hk
      rw [Finset.mem_piAntidiag] at hk
      rw [List.mem_toFinset, generate_dice_outcomes_keys_iff]
      exact ⟨by simp, by rw [List.sum_ofFn]; exact hk.1⟩
    · intro c hc
      rw [List.mem_toFinset, generate_dice_outcomes_keys_iff] at hc
      obtain ⟨a, b, d, e, f, g, rfl⟩ := exists_six_of_length c hc.1
      simp [List.ofFn_succ]
    · intro k _
      funext j
      have hj : (j : ℕ) < (List.ofFn k).length := by simp [j.isLt]
      rw [List.getD_eq_getElem _ _ hj, List.getElem_ofFn]
    · intro c hc
      rw [List.mem_toFinset, generate_dice_outcomes_keys_iff] at hc
      exact multinomial_prob_eq_summand n c hc.1 hc.2
  rw [hbij, ← Finset.sum_pow_eq_sum_piAntidiag (Finset.univ : Finset (Fin 6))
    (fun _ => (1/6 : ℚ)) n]
  norm_num

/-- C10: `generate_dice_outcomes n` has as keys exactly the 6-tuples of
non-negative integers summing to `n`, assigns each the multinomial
probability `n! / (c1!·c2!·c3!·c4!·c5!·c6!) · (1/6)^n`, and the values over
the keys sum to 1 (exactly, in the rational embedding of the source's
floats). -/
theorem C10_dice_outcome_distribution (n : ℕ) :
    (∀ c, c ∈ (generate_dice_outcomes n).1 ↔ c.length = 6 ∧ c.sum = n) ∧
    (∀ c, (generate_dice_outcomes n).2 c =
      (Nat.factorial n : ℚ) /
        ((Nat.factorial (c.getD 0 0) : ℚ) * (Nat.factorial (c.getD 1 0)) *
          (Nat.factorial (c.getD 2 0)) * (Nat.factorial (c.getD 3 0)) *
          (Nat.factorial (c.getD 4 0)) * (Nat.factorial (c.getD 5 0))) * (1/6) ^ n) ∧
    ((generate_dice_outcomes n).1.map (generate_dice_outcomes n).2).sum = 1 :=
  ⟨generate_dice_outcomes_keys_iff n, fun _ => rfl, generate_dice_outcomes_sum_one n⟩
